import Mathlib

set_option maxHeartbeats 1000000

namespace Getme

/--
Shallow embedding of the repository guillaumerose/getme.

The file `src/github/github.go` resolves a public release-asset URL to its
authorization-aware API URL.  Its reference shape is the regular expression

  `https://github.com/([^/]*)/([^/]*)/releases/download/([^/]*)/(.*)`

matched with Go's `FindStringSubmatch` (leftmost match, greedy groups).  We
embed that matcher as an executable function on `List Char`:
`matchFrom` tries the pattern anchored at the head of the list, `findSubmatch`
tries it at every suffix, leftmost first.  Because each `[^/]*` group is
immediately followed by a literal `/`, a greedy group necessarily extends to
the first `/`, so the anchored match is deterministic.
-/
def lit1 : List Char := "https://github.com/".data

/-- The fixed middle literal of the release-download URL shape. -/
def lit2 : List Char := "releases/download/".data

/-- Strip an expected literal prefix from a character list, or fail. -/
def stripPrefixL : List Char → List Char → Option (List Char)
  | [], cs => some cs
  | _ :: _, [] => none
  | p :: ps, c :: cs => if c = p then stripPrefixL ps cs else none

/-- Split a character list at its first occurrence of a slash: greedy
matching of `[^/]*` followed by a literal `/` consumes exactly the run of
non-slash characters and the slash ending it. -/
def breakSlash : List Char → Option (List Char × List Char)
  | [] => none
  | c :: cs =>
    if c = '/' then some ([], cs)
    else
      match breakSlash cs with
      | none => none
      | some (a, b) => some (c :: a, b)

/-- The release-URL pattern anchored at the head of the list, returning the
four capture groups (organization, project, tag, file name).  The file-name
group `(.*)` greedily matches every character up to a newline. -/
def matchFrom (cs : List Char) : Option (List Char × List Char × List Char × List Char) :=
  (stripPrefixL lit1 cs).bind fun r1 =>
    (breakSlash r1).bind fun po =>
      (breakSlash po.2).bind fun pp =>
        (stripPrefixL lit2 pp.2).bind fun r4 =>
          (breakSlash r4).bind fun pt =>
            some (po.1, pp.1, pt.1, List.takeWhile (fun c => Decidable.decide (c ≠ '\n')) pt.2)

/-- Go's `ReleaseURL.FindStringSubmatch`: leftmost match of the pattern,
searching every start position in order. -/
def findSubmatch : List Char → Option (List Char × List Char × List Char × List Char)
  | [] => matchFrom []
  | c :: cs =>
    match matchFrom (c :: cs) with
    | some r => some r
    | none => findSubmatch cs

/-- Declarative description of an anchored match of the release-download URL
shape at the head of the list. -/
def AnchoredShape (cs : List Char) : Prop :=
  ∃ org proj tag post : List Char,
    cs = lit1 ++ org ++ ['/'] ++ proj ++ ['/'] ++ lit2 ++ tag ++ ['/'] ++ post ∧
      '/' ∉ org ∧ '/' ∉ proj ∧ '/' ∉ tag

/-- Declarative description of an (unanchored) match of the release-download
URL shape somewhere in the list: this is what it means for a reference string
to structurally match `.../org/project/releases/download/tag/fileName`. -/
def ShapeMatch (cs : List Char) : Prop :=
  ∃ pre suff : List Char, cs = pre ++ suff ∧ AnchoredShape suff

theorem stripPrefixL_append : ∀ (p r : List Char), stripPrefixL p (p ++ r) = some r := by
  intro p
  induction p with
  | nil => intro r; rfl
  | cons a ps ih => intro r; simp [stripPrefixL, ih]

theorem stripPrefixL_sound : ∀ {p cs r : List Char}, stripPrefixL p cs = some r → cs = p ++ r := by
  intro p
  induction p with
  | nil => intro cs r h; simpa [stripPrefixL] using h
  | cons a ps ih =>
    intro cs r h
    cases cs with
    | nil => simp [stripPrefixL] at h
    | cons c cs' =>
      by_cases hca : c = a
      · subst hca
        simp only [stripPrefixL, if_pos rfl] at h
        simp [ih h]
      · simp [stripPrefixL, hca] at h

theorem stripPrefixL_eq_some {p cs r : List Char} :
    stripPrefixL p cs = some r ↔ cs = p ++ r :=
  ⟨stripPrefixL_sound, fun h => by rw [h]; exact stripPrefixL_append p r⟩

theorem breakSlash_sound : ∀ {cs a b : List Char},
    breakSlash cs = some (a, b) → cs = a ++ '/' :: b ∧ '/' ∉ a := by
  intro cs
  induction cs with
  | nil => intro a b h; simp [breakSlash] at h
  | cons c cs' ih =>
    intro a b h
    by_cases hc : c = '/'
    · subst hc
      simp [breakSlash] at h
      obtain ⟨ha, hb⟩ := h
      subst ha
      subst hb
      simp
    · simp only [breakSlash, if_neg hc] at h
      cases hbs : breakSlash cs' with
      | none => rw [hbs] at h; exact absurd h (by simp)
      | some p =>
        rw [hbs] at h
        obtain ⟨a0, b0⟩ := p
        simp only [Option.some.injEq, Prod.mk.injEq] at h
        obtain ⟨ha, hb⟩ := h
        obtain ⟨h1, h2⟩ := ih hbs
        subst hb
        constructor
        · rw [← ha, h1]; rfl
        · rw [← ha]
          intro hm
          rcases List.mem_cons.mp hm with h' | h'
          · exact hc h'.symm
          · exact h2 h'

theorem breakSlash_append : ∀ (a b : List Char), '/' ∉ a →
    breakSlash (a ++ '/' :: b) = some (a, b) := by
  intro a
  induction a with
  | nil => intro b _; simp [breakSlash]
  | cons x a' ih =>
    intro b ha
    have hx : ¬ x = '/' := fun h => ha (by rw [h]; exact List.mem_cons_self '/' a')
    have ha' : '/' ∉ a' := fun hm => ha (List.mem_cons_of_mem _ hm)
    simp only [List.cons_append, breakSlash, if_neg hx, List.append_eq, ih b ha']

theorem breakSlash_eq_some {cs a b : List Char} :
    breakSlash cs = some (a, b) ↔ cs = a ++ '/' :: b ∧ '/' ∉ a :=
  ⟨breakSlash_sound, fun h => by rw [h.1]; exact breakSlash_append a b h.2⟩

theorem matchFrom_isSome_iff {cs : List Char} :
    (matchFrom cs).isSome = true ↔ AnchoredShape cs := by
  constructor
  · intro h
    rw [Option.isSome_iff_exists] at h
    obtain ⟨v, hv⟩ := h
    simp only [matchFrom, Option.bind_eq_some] at hv
    obtain ⟨r1, h1, ⟨org, r2⟩, h2, ⟨proj, r3⟩, h3, r4, h4, ⟨tag, r5⟩, h5, _⟩ := hv
    dsimp only at h3 h4 h5
    have e1 := stripPrefixL_sound h1
    have e2 := breakSlash_sound h2
    have e3 := breakSlash_sound h3
    have e4 := stripPrefixL_sound h4
    have e5 := breakSlash_sound h5
    refine ⟨org, proj, tag, r5, ?_, e2.2, e3.2, e5.2⟩
    rw [e1, e2.1, e3.1, e4, e5.1]
    simp
  · rintro ⟨org, proj, tag, post, hshape, horg, hproj, htag⟩
    have h1 : stripPrefixL lit1 cs =
        some (org ++ '/' :: (proj ++ '/' :: (lit2 ++ (tag ++ '/' :: post)))) := by
      apply stripPrefixL_eq_some.mpr
      rw [hshape]; simp
    have h2 : breakSlash (org ++ '/' :: (proj ++ '/' :: (lit2 ++ (tag ++ '/' :: post)))) =
        some (org, proj ++ '/' :: (lit2 ++ (tag ++ '/' :: post))) :=
      breakSlash_append _ _ horg
    have h3 : breakSlash (proj ++ '/' :: (lit2 ++ (tag ++ '/' :: post))) =
        some (proj, lit2 ++ (tag ++ '/' :: post)) :=
      breakSlash_append _ _ hproj
    have h4 : stripPrefixL lit2 (lit2 ++ (tag ++ '/' :: post)) = some (tag ++ '/' :: post) :=
      stripPrefixL_append _ _
    have h5 : breakSlash (tag ++ '/' :: post) = some (tag, post) :=
      breakSlash_append _ _ htag
    simp only [matchFrom, h1, Option.some_bind, h2, h3, h4, h5]
    rfl

theorem findSubmatch_isSome_iff : ∀ {cs : List Char},
    (findSubmatch cs).isSome = true ↔ ShapeMatch cs := by
  intro cs
  induction cs with
  | nil =>
    constructor
    · intro h
      exact ⟨[], [], by simp, matchFrom_isSome_iff.mp h⟩
    · rintro ⟨pre, suff, hps, hanch⟩
      have hpre : pre = [] := by
        cases pre with
        | nil => rfl
        | cons x xs => exact absurd hps.symm (by simp)
      have hsuff : suff = [] := by
        cases suff with
        | nil => rfl
        | cons x xs =>
          rw [hpre] at hps
          exact absurd hps.symm (by simp)
      show (matchFrom []).isSome = true
      exact matchFrom_isSome_iff.mpr (hsuff ▸ hanch)
  | cons c cs' ih =>
    constructor
    · intro h
      unfold findSubmatch at h
      cases hm : matchFrom (c :: cs') with
      | some r => exact ⟨[], c :: cs', by simp, matchFrom_isSome_iff.mp (by rw [hm]; rfl)⟩
      | none =>
        rw [hm] at h
        rcases ih.mp h with ⟨pre, suff, hps, hanch⟩
        exact ⟨c :: pre, suff, by rw [List.cons_append, ← hps], hanch⟩
    · rintro ⟨pre, suff, hps, hanch⟩
      unfold findSubmatch
      cases hm : matchFrom (c :: cs') with
      | some r => rfl
      | none =>
        cases pre with
        | nil =>
          exfalso
          have hms : (matchFrom (c :: cs')).isSome = true := by
            apply matchFrom_isSome_iff.mpr
            have hs : suff = c :: cs' := by rw [hps]; rfl
            exact hs ▸ hanch
          rw [hm] at hms
          exact absurd hms (by simp)
        | cons x pre' =>
          apply ih.mpr
          rw [List.cons_append] at hps
          exact ⟨pre', suff, ((List.cons.injEq _ _ _ _).mp hps).2, hanch⟩

/-- Go's `strings.Split(s, "=")` for the single-character separator used by
`addHeaders`: split the character list around every occurrence of the
equals sign. -/
def splitEq : List Char → List (List Char)
  | [] => [[]]
  | c :: cs =>
    if c = '=' then [] :: splitEq cs
    else
      match splitEq cs with
      | [] => [[c]]
      | s :: ss => (c :: s) :: ss

theorem splitEq_ne_nil : ∀ (cs : List Char), splitEq cs ≠ [] := by
  intro cs
  cases cs with
  | nil => simp [splitEq]
  | cons c cs' =>
    by_cases hc : c = '='
    · simp [splitEq, hc]
    · simp only [splitEq, if_neg hc]
      cases splitEq cs' <;> simp

theorem splitEq_length : ∀ (cs : List Char), (splitEq cs).length = cs.count '=' + 1 := by
  intro cs
  induction cs with
  | nil => simp [splitEq]
  | cons c cs' ih =>
    by_cases hc : c = '='
    · subst hc
      simp [splitEq, List.count_cons, ih]
    · have hb : (c == '=') = false := by simp [hc]
      cases hsp : splitEq cs' with
      | nil => exact absurd hsp (splitEq_ne_nil cs')
      | cons s ss =>
        have h2 := ih
        rw [hsp] at h2
        simp only [List.length_cons] at h2
        simp [splitEq, if_neg hc, hsp, List.count_cons, hb]
        omega

/-- One HTTP header specification from github.go: a `key=value` pair. -/
structure HeaderPair where
  key : String
  value : String
deriving DecidableEq

/-- Embedding of `addHeaders` from src/github/github.go: each entry is split
around the equals sign; any entry producing other than exactly two parts
fails the whole call with the invalid-header error; otherwise the parsed
pairs are collected in order. -/
def addHeaders : List String → Except String (List HeaderPair)
  | [] => Except.ok []
  | hd :: rest =>
    match splitEq hd.data with
    | [k, v] =>
      match addHeaders rest with
      | Except.error e => Except.error e
      | Except.ok tl => Except.ok (⟨String.mk k, String.mk v⟩ :: tl)
    | _ => Except.error ("Invalid header [" ++ hd ++ "]. Should be [key=value]")

theorem addHeaders_ok_of_wellformed : ∀ (headers : List String),
    (∀ x ∈ headers, x.data.count '=' = 1) →
    ∃ pairs, addHeaders headers = Except.ok pairs := by
  intro headers
  induction headers with
  | nil => intro _; exact ⟨[], rfl⟩
  | cons hd rest ih =>
    intro hall
    have hc : hd.data.count '=' = 1 := hall hd (List.mem_cons_self _ _)
    have hlen : (splitEq hd.data).length = 2 := by rw [splitEq_length, hc]
    obtain ⟨pairs, hp⟩ := ih (fun x hx => hall x (List.mem_cons_of_mem _ hx))
    match hsp : splitEq hd.data with
    | [] => rw [hsp] at hlen; simp at hlen
    | [a] => rw [hsp] at hlen; simp at hlen
    | [k, v] =>
      refine ⟨⟨String.mk k, String.mk v⟩ :: pairs, ?_⟩
      simp only [addHeaders, hsp, hp]
    | a :: b :: c :: tl =>
      rw [hsp] at hlen
      simp only [List.length_cons] at hlen
      omega

theorem addHeaders_error_at_first_bad : ∀ (pre : List String) (bad : String) (post : List String),
    (∀ x ∈ pre, x.data.count '=' = 1) → bad.data.count '=' ≠ 1 →
    addHeaders (pre ++ bad :: post) =
      Except.error ("Invalid header [" ++ bad ++ "]. Should be [key=value]") := by
  intro pre
  induction pre with
  | nil =>
    intro bad post _ hbad
    have hlen : (splitEq bad.data).length ≠ 2 := by
      rw [splitEq_length]; omega
    match hsp : splitEq bad.data with
    | [] => exact absurd hsp (splitEq_ne_nil bad.data)
    | [a] => simp only [List.nil_append, addHeaders, hsp]
    | [k, v] => rw [hsp] at hlen; simp at hlen
    | a :: b :: c :: tl => simp only [List.nil_append, addHeaders, hsp]
  | cons hd rest ih =>
    intro bad post hall hbad
    have hc : hd.data.count '=' = 1 := hall hd (List.mem_cons_self _ _)
    have hlen : (splitEq hd.data).length = 2 := by rw [splitEq_length, hc]
    match hsp : splitEq hd.data with
    | [] => rw [hsp] at hlen; simp at hlen
    | [a] => rw [hsp] at hlen; simp at hlen
    | [k, v] =>
      have hrec := ih bad post (fun x hx => hall x (List.mem_cons_of_mem _ hx)) hbad
      simp only [List.cons_append, addHeaders, hsp, List.append_eq, hrec]
    | a :: b :: c :: tl =>
      rw [hsp] at hlen
      simp only [List.length_cons] at hlen
      omega

/-- One asset of the release response of the artifact store, with the opaque
id, the public browser download URL and the authorization-aware API URL
(mirrors the json structure decoded in src/github/github.go). -/
structure Asset where
  id : Int
  browser_download_url : String
  url : String
deriving DecidableEq

/-- The decoded release response: a list of assets. -/
structure Release where
  assets : List Asset
deriving DecidableEq

/-- The scan loop of `AssetUrl`: return the api `url` of the first asset
whose `browser_download_url` equals the reference. -/
def findAssetURL (reference : String) : List Asset → Option String
  | [] => none
  | a :: rest =>
    if a.browser_download_url = reference then some a.url
    else findAssetURL reference rest

theorem findAssetURL_eq_none : ∀ (assets : List Asset) (reference : String),
    (∀ a ∈ assets, a.browser_download_url ≠ reference) →
    findAssetURL reference assets = none := by
  intro assets reference
  induction assets with
  | nil => intro _; rfl
  | cons a rest ih =>
    intro hall
    have ha : a.browser_download_url ≠ reference := hall a (List.mem_cons_self _ _)
    simp only [findAssetURL, if_neg ha]
    exact ih (fun x hx => hall x (List.mem_cons_of_mem _ hx))

theorem findAssetURL_first_match : ∀ (pre : List Asset) (a : Asset) (post : List Asset)
    (reference : String),
    (∀ x ∈ pre, x.browser_download_url ≠ reference) →
    a.browser_download_url = reference →
    findAssetURL reference (pre ++ a :: post) = some a.url := by
  intro pre
  induction pre with
  | nil =>
    intro a post reference _ ha
    simp only [List.nil_append, findAssetURL, if_pos ha]
  | cons x rest ih =>
    intro a post reference hall ha
    have hx : x.browser_download_url ≠ reference := hall x (List.mem_cons_self _ _)
    simp only [List.cons_append, findAssetURL, if_neg hx]
    exact ih a post reference (fun y hy => hall y (List.mem_cons_of_mem _ hy)) ha

/-- Outcome of one call of `AssetUrl`: the Go function either returns a
location, returns an error, or crashes with a runtime panic (the unguarded
`parts[1]` index on a failed regular-expression match). -/
inductive ResolveResult where
  | ok (location : String)
  | err (msg : String)
  | panicked (msg : String)
deriving DecidableEq

/-- External world of one `AssetUrl` call.  `http.NewRequest`,
`http.DefaultClient.Do`, `ioutil.ReadAll` and `json.Unmarshal` are outside
the repository; their outcomes are supplied by this environment. -/
structure GithubEnv where
  newRequestErr : String → Option String
  doErr : Option String
  statusCode : Nat
  statusText : String
  readErr : Option String
  unmarshalResult : Except String Release

/-- Embedding of `AssetUrl` from src/github/github.go.  The second component
counts the network calls issued (invocations of `http.DefaultClient.Do`).
The control flow mirrors the source line by line: the submatch is read
without checking that the match succeeded, so a reference that does not
match the release shape crashes with an index-out-of-range panic before
anything else happens. -/
def AssetUrl (reference : String) (headers : List String) (env : GithubEnv) :
    ResolveResult × Nat :=
  match findSubmatch reference.data with
  | none => (ResolveResult.panicked "runtime error: index out of range [1] with length 0", 0)
  | some (org, proj, tag, _) =>
    let assetsUrl := "https://api.github.com/repos/" ++ String.mk org ++ "/" ++
      String.mk proj ++ "/releases/tags/" ++ String.mk tag
    match env.newRequestErr assetsUrl with
    | some e => (ResolveResult.err e, 0)
    | none =>
      match addHeaders headers with
      | Except.error e => (ResolveResult.err e, 0)
      | Except.ok _ =>
        match env.doErr with
        | some e => (ResolveResult.err e, 1)
        | none =>
          if 400 ≤ env.statusCode then (ResolveResult.err env.statusText, 1)
          else
            match env.readErr with
            | some e => (ResolveResult.err e, 1)
            | none =>
              match env.unmarshalResult with
              | Except.error e => (ResolveResult.err e, 1)
              | Except.ok rel =>
                match findAssetURL reference rel.assets with
                | some loc => (ResolveResult.ok loc, 1)
                | none => (ResolveResult.err ("Unable to find this release: " ++ reference), 1)

/-- Outcome of a top-level command of src/main.go: a Go `nil` error, a
returned error value, or a runtime panic. -/
inductive Outcome where
  | success
  | failure (msg : String)
  | panicked (msg : String)
deriving DecidableEq

/-- The `files.Options` value built by flag parsing in src/main.go.  Note
that the force flag is deliberately NOT a field here: in the source it is a
separate package-level variable (`var force bool`, src/main.go lines 20-22),
mirrored by `Globals` below. -/
structure Options where
  authToken : String
  authTokenEnvVariable : String
  s3AccessKey : String
  s3SecretKey : String
  sha256 : String
deriving DecidableEq

/-- The package-level mutable state of src/main.go: exactly one variable,
the `force` flag set by the `--force` command-line flag and read by
`Download`, `Copy`, `Extract` and `ExtractFiles`. -/
structure Globals where
  force : Bool
deriving DecidableEq

/-- One observable call to an external collaborator during a run. -/
inductive Event where
  | cacheFetch (reference : String) (options : Options) (force : Bool)
  | jenkinsInit
  | getJob (name : String)
  | invoke (commitId : String)
  | queuePoll
  | buildFetch (id : Int)
  | zipExtractCall (source destination : String)
  | tarExtractCall (reference source destination : String)
  | zipExtractFilesCall (source : String)
  | tarExtractFilesCall (reference source : String)
deriving DecidableEq

/-- Recognizer for cache-store fetch events. -/
def isCacheFetch : Event → Bool
  | Event.cacheFetch _ _ _ => true
  | _ => false

/-- Recognizer for build-record fetch events. -/
def isBuildFetch : Event → Bool
  | Event.buildFetch _ => true
  | _ => false

/-- The external cache store (package `cache`, an external collaborator per
the spec): called as `cache.Download(url, options, force)`.  The `Nat`
argument distinguishes the successive calls of one run for the same
reference (the orchestrator calls it at most twice). -/
structure CacheEnv where
  fetch : Nat → String → Options → Bool → Except String String

/-- A CI build record as consumed through gojenkins: its parameter values in
order, its running flag and its success flag. -/
structure Build where
  parameters : List String
  isRunning : Bool
  isGood : Bool
deriving DecidableEq

/-- The external CI system (gojenkins) as consumed by `Pinata`.
`getQueue t` is the queue contents observed by the poll number `t`;
`getBuild i k` is the result of fetch number `k` of build `i` (fetch 0 is
the one performed by the scan loop, fetches 1, 2, ... are the re-fetches of
the completion-poll loop). -/
structure JenkinsEnv where
  initErr : Option String
  getJobErr : Option String
  invokeResult : Except String Int
  getQueue : Nat → Except String (Int → Bool)
  buildIds : Except String (List Int)
  getBuild : Int → Nat → Except String Build

/-- Embedding of the `Download` command body (src/main.go lines 186-198) at
a given cache-call index: fetch through the cache store with the global
force flag; print the path and succeed, or return the error. -/
def DownloadK (cenv : CacheEnv) (g : Globals) (k : Nat) (reference : String)
    (options : Options) : Outcome × List Event :=
  match cenv.fetch k reference options g.force with
  | Except.error e => (Outcome.failure e, [Event.cacheFetch reference options g.force])
  | Except.ok _ => (Outcome.success, [Event.cacheFetch reference options g.force])

/-- The top-level `Download` command itself. -/
def Download (cenv : CacheEnv) (g : Globals) (reference : String) (options : Options) :
    Outcome × List Event :=
  DownloadK cenv g 0 reference options

/-- The queue-poll loop of `Pinata` (src/main.go lines 139-150): poll the CI
queue once per second until the triggered task id is gone; a `GetQueue`
error is returned; the loop itself is unbounded, so the embedding takes
fuel and answers `none` when the fuel runs out while the task is still
queued. -/
def awaitQueue (jenv : JenkinsEnv) (taskId : Int) : Nat → Nat →
    Option (Except String Unit) × List Event
  | _, 0 => (none, [])
  | t, fuel + 1 =>
    match jenv.getQueue t with
    | Except.error e => (some (Except.error e), [Event.queuePoll])
    | Except.ok member =>
      if member taskId then
        let r := awaitQueue jenv taskId (t + 1) fuel
        (r.1, Event.queuePoll :: r.2)
      else (some (Except.ok ()), [Event.queuePoll])

/-- The completion-poll loop of `Pinata` (src/main.go lines 162-172): while
the matched build is running, sleep five seconds and fetch it again; a
fetch error is returned; on exit the current build record is delivered.
Unbounded in the source, hence fuel. -/
def awaitBuild (jenv : JenkinsEnv) (i : Int) : Build → Nat → Nat →
    Option (Except String Build) × List Event
  | b, _, 0 => if b.isRunning then (none, []) else (some (Except.ok b), [])
  | b, k, fuel + 1 =>
    if b.isRunning then
      match jenv.getBuild i k with
      | Except.error e => (some (Except.error e), [Event.buildFetch i])
      | Except.ok b2 =>
        let r := awaitBuild jenv i b2 (k + 1) fuel
        (r.1, Event.buildFetch i :: r.2)
    else (some (Except.ok b), [])

/-- The build-scan stage of `Pinata` (src/main.go lines 152-179): walk the
build ids in the order the CI system returned them; fetch each record and
read the value of its first parameter WITHOUT checking that the parameter
list is non-empty (an empty list is a runtime index-out-of-range panic); at
the first record whose first parameter equals the commit, await completion
and either re-run the cache download (`retry`) on success or fail with
"Build failed"; if no record matches, fail with "Build not found". -/
def scanBuilds (jenv : JenkinsEnv) (commit : String) (retry : Outcome × List Event)
    (rFuel : Nat) : List Int → Option Outcome × List Event
  | [] => (some (Outcome.failure "Build not found"), [])
  | i :: rest =>
    match jenv.getBuild i 0 with
    | Except.error e => (some (Outcome.failure e), [Event.buildFetch i])
    | Except.ok b =>
      match b.parameters with
      | [] => (some (Outcome.panicked "runtime error: index out of range [0] with length 0"),
          [Event.buildFetch i])
      | p :: _ =>
        if p = commit then
          match awaitBuild jenv i b 1 rFuel with
          | (none, bevs) => (none, Event.buildFetch i :: bevs)
          | (some (Except.error e), bevs) =>
            (some (Outcome.failure e), Event.buildFetch i :: bevs)
          | (some (Except.ok final), bevs) =>
            if final.isGood then
              (some retry.1, Event.buildFetch i :: (bevs ++ retry.2))
            else (some (Outcome.failure "Build failed"), Event.buildFetch i :: bevs)
        else
          let s := scanBuilds jenv commit retry rFuel rest
          (s.1, Event.buildFetch i :: s.2)

/-- The Jenkins job name `pinata-{platform}-iso` looked up by `Pinata`. -/
def jobName (platform : String) : String := "pinata-" ++ platform ++ "-iso"

/-- The artifact reference constructed by `Pinata`. -/
def binaryUrl (bucket commit platform : String) : String :=
  "https://storage.googleapis.com/" ++ bucket ++ "/" ++ commit ++ "/docker-for-" ++
    platform ++ ".iso.tgz"

/-- Embedding of the `Pinata` build-fallback orchestrator (src/main.go lines
115-182).  The result is the final outcome (`none` when an unbounded poll
loop is still spinning at fuel exhaustion) paired with the ordered trace of
external calls. -/
def Pinata (cenv : CacheEnv) (jenv : JenkinsEnv) (g : Globals)
    (bucket commit platform : String) (options : Options) (qFuel rFuel : Nat) :
    Option Outcome × List Event :=
  let binary := binaryUrl bucket commit platform
  match cenv.fetch 0 binary options g.force with
  | Except.ok _ => (some Outcome.success, [Event.cacheFetch binary options g.force])
  | Except.error _ =>
    let evs0 : List Event := [Event.cacheFetch binary options g.force, Event.jenkinsInit]
    match jenv.initErr with
    | some e => (some (Outcome.failure e), evs0)
    | none =>
      let evs1 := evs0 ++ [Event.getJob (jobName platform)]
      match jenv.getJobErr with
      | some e => (some (Outcome.failure e), evs1)
      | none =>
        let evs2 := evs1 ++ [Event.invoke commit]
        match jenv.invokeResult with
        | Except.error e => (some (Outcome.failure e), evs2)
        | Except.ok taskId =>
          match awaitQueue jenv taskId 0 qFuel with
          | (none, qevs) => (none, evs2 ++ qevs)
          | (some (Except.error e), qevs) => (some (Outcome.failure e), evs2 ++ qevs)
          | (some (Except.ok _), qevs) =>
            match jenv.buildIds with
            | Except.error e => (some (Outcome.failure e), evs2 ++ qevs)
            | Except.ok ids =>
              let s := scanBuilds jenv commit
                (DownloadK cenv g 1 binary options) rFuel ids
              (s.1, evs2 ++ qevs ++ s.2)

/-- Modelled from the spec: `urls.IsZipArchive` lives in the `urls` package,
which is not under src/; per the spec a `.zip`-shaped reference is one whose
filename suffix is of the zip class. -/
def isZipArchive (reference : String) : Bool := ".zip".data.isSuffixOf reference.data

/-- Modelled from the spec: `urls.IsTarArchive` lives in the `urls` package,
which is not under src/; per the spec the tar family covers the tar suffix
and its compressed variants. -/
def isTarArchive (reference : String) : Bool :=
  ".tar".data.isSuffixOf reference.data || ".tar.gz".data.isSuffixOf reference.data ||
    ".tgz".data.isSuffixOf reference.data || ".tar.bz2".data.isSuffixOf reference.data ||
    ".tar.xz".data.isSuffixOf reference.data

/-- One selected entry of an `ExtractFiles` request (files.ExtractedFile). -/
structure ExtractedFile where
  source : String
  destination : String
deriving DecidableEq

/-- The external archive implementations (packages `zip` and `tar`, external
collaborators per the spec): each call either succeeds or yields an error. -/
structure ArchiveEnv where
  zipExtract : String → String → Option String
  tarExtract : String → String → String → Option String
  zipExtractFiles : String → List ExtractedFile → Option String
  tarExtractFiles : String → String → List ExtractedFile → Option String

/-- Turn an external collaborator's optional error into an outcome. -/
def errToOutcome : Option String → Outcome
  | none => Outcome.success
  | some e => Outcome.failure e

/-- Embedding of the `Extract` command (src/main.go lines 220-236): fetch
through the cache, then dispatch on the REFERENCE's suffix — zip class
first, then the tar family; a reference matching neither fails with the
unsupported-archive error, whose payload is the fetched local path
`source`, not the reference. -/
def Extract (cenv : CacheEnv) (aenv : ArchiveEnv) (g : Globals) (reference : String)
    (options : Options) (destinationDirectory : String) : Outcome × List Event :=
  match cenv.fetch 0 reference options g.force with
  | Except.error e => (Outcome.failure e, [Event.cacheFetch reference options g.force])
  | Except.ok source =>
    if isZipArchive reference then
      (errToOutcome (aenv.zipExtract source destinationDirectory),
        [Event.cacheFetch reference options g.force,
          Event.zipExtractCall source destinationDirectory])
    else if isTarArchive reference then
      (errToOutcome (aenv.tarExtract reference source destinationDirectory),
        [Event.cacheFetch reference options g.force,
          Event.tarExtractCall reference source destinationDirectory])
    else
      (Outcome.failure ("Unsupported archive: " ++ source),
        [Event.cacheFetch reference options g.force])

/-- Embedding of the `ExtractFiles` command (src/main.go lines 240-258),
with the same suffix dispatch and the same unsupported-archive error
carrying the fetched local path. -/
def ExtractFiles (cenv : CacheEnv) (aenv : ArchiveEnv) (g : Globals) (reference : String)
    (options : Options) (extracted : List ExtractedFile) : Outcome × List Event :=
  match cenv.fetch 0 reference options g.force with
  | Except.error e => (Outcome.failure e, [Event.cacheFetch reference options g.force])
  | Except.ok source =>
    if isZipArchive reference then
      (errToOutcome (aenv.zipExtractFiles source extracted),
        [Event.cacheFetch reference options g.force, Event.zipExtractFilesCall source])
    else if isTarArchive reference then
      (errToOutcome (aenv.tarExtractFiles reference source extracted),
        [Event.cacheFetch reference options g.force,
          Event.tarExtractFilesCall reference source])
    else
      (Outcome.failure ("Unsupported archive: " ++ source),
        [Event.cacheFetch reference options g.force])

/-- The kind derived by the reference classifier. -/
inductive Kind where
  | Direct
  | ReleaseAsset
deriving DecidableEq

/-- Modelled from the spec: the reference classifier (`classify`) is invoked
inside the cache layer, which is not under src/; per the spec it returns
`ReleaseAsset` exactly when the reference structurally matches the
release-download URL shape, which the source defines by the `ReleaseURL`
regular expression of src/github/github.go, embedded here as
`findSubmatch`; every other reference is `Direct`. -/
def classify (reference : String) : Kind :=
  if (findSubmatch reference.data).isSome then Kind.ReleaseAsset else Kind.Direct

theorem DownloadK_events (cenv : CacheEnv) (g : Globals) (k : Nat) (reference : String)
    (options : Options) :
    (DownloadK cenv g k reference options).2 = [Event.cacheFetch reference options g.force] := by
  cases h : cenv.fetch k reference options g.force <;> simp [DownloadK, h]

theorem awaitQueue_events : ∀ (jenv : JenkinsEnv) (taskId : Int) (t fuel : Nat) (e : Event),
    e ∈ (awaitQueue jenv taskId t fuel).2 → e = Event.queuePoll := by
  intro jenv taskId t fuel
  induction fuel generalizing t with
  | zero => intro e he; simp [awaitQueue] at he
  | succ n ih =>
    intro e he
    cases hq : jenv.getQueue t with
    | error err =>
      simp only [awaitQueue, hq] at he
      simpa using he
    | ok member =>
      by_cases hm : member taskId
      · simp only [awaitQueue, hq, if_pos hm] at he
        rcases List.mem_cons.mp he with h | h
        · exact h
        · exact ih (t + 1) e h
      · simp only [awaitQueue, hq, if_neg hm] at he
        simpa using he

theorem awaitBuild_events : ∀ (jenv : JenkinsEnv) (i : Int) (b : Build) (k fuel : Nat) (e : Event),
    e ∈ (awaitBuild jenv i b k fuel).2 → e = Event.buildFetch i := by
  intro jenv i b k fuel
  induction fuel generalizing b k with
  | zero =>
    intro e he
    by_cases hr : b.isRunning <;> simp [awaitBuild, hr] at he
  | succ n ih =>
    intro e he
    by_cases hr : b.isRunning
    · cases hb : jenv.getBuild i k with
      | error err =>
        simp only [awaitBuild, if_pos hr, hb] at he
        simpa using he
      | ok b2 =>
        simp only [awaitBuild, if_pos hr, hb] at he
        rcases List.mem_cons.mp he with h | h
        · exact h
        · exact ih b2 (k + 1) e h
    · simp [awaitBuild, hr] at he

theorem awaitBuild_done (jenv : JenkinsEnv) (i : Int) (b : Build) (k fuel : Nat)
    (h : b.isRunning = false) : awaitBuild jenv i b k fuel = (some (Except.ok b), []) := by
  cases fuel <;> simp [awaitBuild, h]

/-- A build record that the scan loop fetches successfully, reads a first
parameter from, and skips because that parameter is not the commit. -/
def skippable (jenv : JenkinsEnv) (commit : String) (j : Int) : Prop :=
  ∃ b p ps, jenv.getBuild j 0 = Except.ok b ∧ b.parameters = p :: ps ∧ p ≠ commit

theorem scanBuilds_skip (jenv : JenkinsEnv) (commit : String) (retry : Outcome × List Event)
    (rFuel : Nat) (j : Int) (rest : List Int) (hj : skippable jenv commit j) :
    scanBuilds jenv commit retry rFuel (j :: rest) =
      ((scanBuilds jenv commit retry rFuel rest).1,
        Event.buildFetch j :: (scanBuilds jenv commit retry rFuel rest).2) := by
  obtain ⟨b, p, ps, hb, hp, hne⟩ := hj
  simp [scanBuilds, hb, hp, hne]

theorem scanBuilds_skip_append (jenv : JenkinsEnv) (commit : String)
    (retry : Outcome × List Event) (rFuel : Nat) :
    ∀ (pre rest : List Int), (∀ j ∈ pre, skippable jenv commit j) →
      scanBuilds jenv commit retry rFuel (pre ++ rest) =
        ((scanBuilds jenv commit retry rFuel rest).1,
          pre.map Event.buildFetch ++ (scanBuilds jenv commit retry rFuel rest).2) := by
  intro pre
  induction pre with
  | nil => intro rest _; simp
  | cons j pre' ih =>
    intro rest hall
    have hj := hall j (List.mem_cons_self _ _)
    rw [List.cons_append, scanBuilds_skip jenv commit retry rFuel j (pre' ++ rest) hj,
      ih rest (fun x hx => hall x (List.mem_cons_of_mem _ hx))]
    simp

theorem scanBuilds_not_found (jenv : JenkinsEnv) (commit : String)
    (retry : Outcome × List Event) (rFuel : Nat) (ids : List Int)
    (hall : ∀ j ∈ ids, skippable jenv commit j) :
    scanBuilds jenv commit retry rFuel ids =
      (some (Outcome.failure "Build not found"), ids.map Event.buildFetch) := by
  have h := scanBuilds_skip_append jenv commit retry rFuel ids [] hall
  rw [List.append_nil] at h
  rw [h]
  simp [scanBuilds]

theorem scanBuilds_hit (jenv : JenkinsEnv) (commit : String) (retry : Outcome × List Event)
    (rFuel : Nat) (i : Int) (rest : List Int) (b final : Build) (ps : List String)
    (bevs : List Event) (hb : jenv.getBuild i 0 = Except.ok b)
    (hp : b.parameters = commit :: ps)
    (hw : awaitBuild jenv i b 1 rFuel = (some (Except.ok final), bevs)) :
    scanBuilds jenv commit retry rFuel (i :: rest) =
      (some (if final.isGood then retry.1 else Outcome.failure "Build failed"),
        Event.buildFetch i :: (bevs ++ if final.isGood then retry.2 else [])) := by
  by_cases hg : final.isGood
  · simp [scanBuilds, hb, hp, hw, hg]
  · simp [scanBuilds, hb, hp, hw, hg]

theorem scanBuilds_panic (jenv : JenkinsEnv) (commit : String) (retry : Outcome × List Event)
    (rFuel : Nat) (i : Int) (rest : List Int) (b : Build)
    (hb : jenv.getBuild i 0 = Except.ok b) (hp : b.parameters = []) :
    scanBuilds jenv commit retry rFuel (i :: rest) =
      (some (Outcome.panicked "runtime error: index out of range [0] with length 0"),
        [Event.buildFetch i]) := by
  simp [scanBuilds, hb, hp]

theorem scanBuilds_events (jenv : JenkinsEnv) (commit : String) (retry : Outcome × List Event)
    (rFuel : Nat) : ∀ (ids : List Int) (e : Event),
    e ∈ (scanBuilds jenv commit retry rFuel ids).2 →
      e ∈ retry.2 ∨ ∃ j, e = Event.buildFetch j := by
  intro ids
  induction ids with
  | nil => intro e he; simp [scanBuilds] at he
  | cons i rest ih =>
    intro e he
    cases hb : jenv.getBuild i 0 with
    | error err =>
      simp only [scanBuilds, hb] at he
      exact Or.inr ⟨i, by simpa using he⟩
    | ok b =>
      cases hp : b.parameters with
      | nil =>
        simp only [scanBuilds, hb, hp] at he
        exact Or.inr ⟨i, by simpa using he⟩
      | cons p ps =>
        by_cases hpc : p = commit
        · rcases hw : awaitBuild jenv i b 1 rFuel with ⟨r0, bevs⟩
          have hbevs : ∀ x ∈ bevs, x = Event.buildFetch i := by
            intro x hx
            exact awaitBuild_events jenv i b 1 rFuel x (by rw [hw]; exact hx)
          match r0 with
          | none =>
            simp only [scanBuilds, hb, hp, if_pos hpc, hw] at he
            rcases List.mem_cons.mp he with h | h
            · exact Or.inr ⟨i, h⟩
            · exact Or.inr ⟨i, hbevs e h⟩
          | some (Except.error err) =>
            simp only [scanBuilds, hb, hp, if_pos hpc, hw] at he
            rcases List.mem_cons.mp he with h | h
            · exact Or.inr ⟨i, h⟩
            · exact Or.inr ⟨i, hbevs e h⟩
          | some (Except.ok final) =>
            by_cases hg : final.isGood
            · simp only [scanBuilds, hb, hp, if_pos hpc, hw, if_pos hg] at he
              rcases List.mem_cons.mp he with h | h
              · exact Or.inr ⟨i, h⟩
              · rcases List.mem_append.mp h with h2 | h2
                · exact Or.inr ⟨i, hbevs e h2⟩
                · exact Or.inl h2
            · simp only [scanBuilds, hb, hp, if_pos hpc, hw, if_neg hg] at he
              rcases List.mem_cons.mp he with h | h
              · exact Or.inr ⟨i, h⟩
              · exact Or.inr ⟨i, hbevs e h⟩
        · simp only [scanBuilds, hb, hp, if_neg hpc] at he
          rcases List.mem_cons.mp he with h | h
          · exact Or.inr ⟨i, h⟩
          · exact ih e h

theorem Pinata_scan (cenv : CacheEnv) (jenv : JenkinsEnv) (g : Globals)
    (bucket commit platform : String) (options : Options) (qFuel rFuel : Nat)
    (e0 : String) (taskId : Int) (qevs : List Event) (ids : List Int)
    (h0 : cenv.fetch 0 (binaryUrl bucket commit platform) options g.force = Except.error e0)
    (h1 : jenv.initErr = none) (h2 : jenv.getJobErr = none)
    (h3 : jenv.invokeResult = Except.ok taskId)
    (h4 : awaitQueue jenv taskId 0 qFuel = (some (Except.ok ()), qevs))
    (h5 : jenv.buildIds = Except.ok ids) :
    Pinata cenv jenv g bucket commit platform options qFuel rFuel =
      ((scanBuilds jenv commit (DownloadK cenv g 1 (binaryUrl bucket commit platform) options)
          rFuel ids).1,
        Event.cacheFetch (binaryUrl bucket commit platform) options g.force ::
          Event.jenkinsInit :: Event.getJob (jobName platform) :: Event.invoke commit ::
          (qevs ++ (scanBuilds jenv commit
            (DownloadK cenv g 1 (binaryUrl bucket commit platform) options) rFuel ids).2)) := by
  simp [Pinata, h0, h1, h2, h3, h4, h5]

/-- A release-asset reference used to exercise the resolver theorems. -/
def sampleReleaseUrl : String := "https://github.com/o/p/releases/download/v1/f.zip"

/-- An options record with every flag left empty. -/
def optionsNone : Options := ⟨"", "", "", "", ""⟩

/-- A github environment whose network steps all succeed and whose response
decodes to the given release. -/
def githubEnvOk (rel : Release) : GithubEnv :=
  ⟨fun _ => none, none, 200, "200 OK", none, Except.ok rel⟩

/-- C1: the claim states that for a reference not matching the
release-download shape, `AssetUrl` fails with a malformed-reference error,
the structural match being checked explicitly before any capture group is
read.  The source (src/github/github.go lines 26-29) reads `parts[1]` of
`FindStringSubmatch` without any check, so on a non-matching reference the
call crashes with a runtime index-out-of-range panic — before any header
validation or network call — instead of returning an error.  Evaluated here
at the failing input "https://example.com/v1/archive.zip". -/
theorem C1_malformed_reference_panics :
    findSubmatch ("https://example.com/v1/archive.zip").data = none ∧
      AssetUrl "https://example.com/v1/archive.zip" [] (githubEnvOk ⟨[]⟩) =
        (ResolveResult.panicked "runtime error: index out of range [1] with length 0", 0) := by
  constructor
  · rfl
  · rfl

/-- C4: with the reference matching the release shape and every network and
decoding step succeeding, `AssetUrl` scans the decoded asset list in order:
if no asset's public browser download URL equals the reference it fails
with the not-found error carrying the reference, and otherwise it returns
the authorization-aware api `url` field of the FIRST asset whose public URL
equals the reference. -/
theorem C4_asset_scan_first_match (reference : String) (headers : List String)
    (env : GithubEnv) (quad : List Char × List Char × List Char × List Char)
    (rel : Release) (pairs : List HeaderPair)
    (hm : findSubmatch reference.data = some quad)
    (hreq : ∀ u, env.newRequestErr u = none)
    (hhdr : addHeaders headers = Except.ok pairs)
    (hdo : env.doErr = none)
    (hst : env.statusCode < 400)
    (hrd : env.readErr = none)
    (hun : env.unmarshalResult = Except.ok rel) :
    ((∀ a ∈ rel.assets, a.browser_download_url ≠ reference) →
        AssetUrl reference headers env =
          (ResolveResult.err ("Unable to find this release: " ++ reference), 1)) ∧
      (∀ (pre : List Asset) (a : Asset) (post : List Asset),
        rel.assets = pre ++ a :: post →
        (∀ x ∈ pre, x.browser_download_url ≠ reference) →
        a.browser_download_url = reference →
        AssetUrl reference headers env = (ResolveResult.ok a.url, 1)) := by
  obtain ⟨org, proj, tag, fn⟩ := quad
  have hnst : ¬ 400 ≤ env.statusCode := Nat.not_le.mpr hst
  constructor
  · intro hnone
    have hfa := findAssetURL_eq_none rel.assets reference hnone
    simp [AssetUrl, hm, hreq, hhdr, hdo, hnst, hrd, hun, hfa]
  · intro pre a post hsplit hpre ha
    have hfa := findAssetURL_first_match pre a post reference hpre ha
    simp [AssetUrl, hm, hreq, hhdr, hdo, hnst, hrd, hun, hsplit, hfa]

/-- C4 witness: a store response with one asset whose public URL equals the
reference makes `AssetUrl` return exactly that asset's api `url` field. -/
theorem C4_asset_scan_first_match_witness :
    AssetUrl sampleReleaseUrl []
        (githubEnvOk ⟨[⟨1, sampleReleaseUrl, "https://api.github.com/assets/1"⟩]⟩) =
      (ResolveResult.ok "https://api.github.com/assets/1", 1) :=
  (C4_asset_scan_first_match sampleReleaseUrl []
      (githubEnvOk ⟨[⟨1, sampleReleaseUrl, "https://api.github.com/assets/1"⟩]⟩)
      ("o".data, "p".data, "v1".data, "f.zip".data)
      ⟨[⟨1, sampleReleaseUrl, "https://api.github.com/assets/1"⟩]⟩ []
      rfl (fun _ => rfl) rfl rfl (by decide) rfl rfl).2
    [] ⟨1, sampleReleaseUrl, "https://api.github.com/assets/1"⟩ [] rfl
    (by intro x hx; simp at hx) rfl

/-- C5: with the reference matching the release shape, if any header entry
does not contain exactly one equals sign, `AssetUrl` fails with the
invalid-header error identifying the first such entry, and the network-call
count of the run is zero: validation happens before the request is sent. -/
theorem C5_invalid_header_no_network (reference : String) (headers : List String)
    (env : GithubEnv) (quad : List Char × List Char × List Char × List Char)
    (pre : List String) (bad : String) (post : List String)
    (hm : findSubmatch reference.data = some quad)
    (hreq : ∀ u, env.newRequestErr u = none)
    (hh : headers = pre ++ bad :: post)
    (hpre : ∀ x ∈ pre, x.data.count '=' = 1)
    (hbad : bad.data.count '=' ≠ 1) :
    AssetUrl reference headers env =
      (ResolveResult.err ("Invalid header [" ++ bad ++ "]. Should be [key=value]"), 0) := by
  obtain ⟨org, proj, tag, fn⟩ := quad
  have hah := addHeaders_error_at_first_bad pre bad post hpre hbad
  simp [AssetUrl, hm, hreq, hh, hah]

/-- C5 witness: the header "abc" (no equals sign at all) fails the whole
call before any network call, also when a later entry "k=v=w" (two equals
signs) is present. -/
theorem C5_invalid_header_no_network_witness :
    AssetUrl sampleReleaseUrl ["abc", "k=v=w"] (githubEnvOk ⟨[]⟩) =
      (ResolveResult.err "Invalid header [abc]. Should be [key=value]", 0) :=
  C5_invalid_header_no_network sampleReleaseUrl ["abc", "k=v=w"] (githubEnvOk ⟨[]⟩)
    ("o".data, "p".data, "v1".data, "f.zip".data) [] "abc" ["k=v=w"]
    rfl (fun _ => rfl) rfl (by intro x hx; simp at hx) (by decide)

/-- C7: the classifier is a pure function of the reference string; it
returns `ReleaseAsset` exactly when the reference structurally matches the
release-download URL shape (a decomposition into
`.../org/project/releases/download/tag/...` with slash-free organization,
project and tag segments), and `Direct` for every other string. -/
theorem C7_classify_iff_shape (reference : String) :
    (classify reference = Kind.ReleaseAsset ↔ ShapeMatch reference.data) ∧
      (classify reference = Kind.Direct ↔ ¬ ShapeMatch reference.data) := by
  by_cases hs : (findSubmatch reference.data).isSome = true
  · have hsm := findSubmatch_isSome_iff.mp hs
    constructor
    · exact ⟨fun _ => hsm, fun _ => by simp [classify, hs]⟩
    · constructor
      · intro h
        simp [classify, hs] at h
      · intro h
        exact absurd hsm h
  · have hsm : ¬ ShapeMatch reference.data := fun h => hs (findSubmatch_isSome_iff.mpr h)
    constructor
    · constructor
      · intro h
        simp [classify, hs] at h
      · intro h
        exact absurd h hsm
    · exact ⟨fun _ => hsm, fun _ => by simp [classify, hs]⟩

/-- A cache store whose first fetch of any reference misses and whose later
fetches succeed. -/
def cacheMissThenHit : CacheEnv :=
  ⟨fun k _ _ _ => if k = 0 then Except.error "not in cache" else Except.ok "/cache/file"⟩

/-- A cache store that always serves the artifact. -/
def cacheAlwaysOk : CacheEnv := ⟨fun _ _ _ _ => Except.ok "/cache/file"⟩

/-- A CI system that the run is not supposed to contact: every capability
errors out, so any accidental contact would surface in an outcome. -/
def jenkinsUnused : JenkinsEnv :=
  ⟨none, none, Except.error "unused", fun _ => Except.error "unused", Except.error "unused",
    fun _ _ => Except.error "unused"⟩

/-- A completed, successful build whose first parameter is the commit "c". -/
def buildGood : Build := ⟨["c"], false, true⟩

/-- A completed, failed build whose first parameter is the commit "c". -/
def buildBad : Build := ⟨["c"], false, false⟩

/-- A completed build whose first parameter is not the commit "c". -/
def buildOther : Build := ⟨["x"], false, true⟩

/-- A build record carrying an empty parameter list. -/
def buildNoParams : Build := ⟨[], false, true⟩

/-- A mocked CI system: the trigger yields task 7, the queue is already
empty at the first poll, the job has the single build 3, and every build
fetch returns the given record. -/
def jenkinsWith (b : Build) : JenkinsEnv :=
  ⟨none, none, Except.ok 7, fun _ => Except.ok fun _ => false, Except.ok [3],
    fun _ _ => Except.ok b⟩

/-- C6: when the first cache fetch succeeds, `Pinata` ends with that success
and its trace is exactly the one cache-fetch call: the CI system is never
contacted — no connect, no job lookup, no trigger, no queue poll and no
build fetch appear in the trace. -/
theorem C6_cache_hit_skips_ci (cenv : CacheEnv) (jenv : JenkinsEnv) (g : Globals)
    (bucket commit platform : String) (options : Options) (qFuel rFuel : Nat) (path : String)
    (h : cenv.fetch 0 (binaryUrl bucket commit platform) options g.force = Except.ok path) :
    Pinata cenv jenv g bucket commit platform options qFuel rFuel =
      (some Outcome.success,
        [Event.cacheFetch (binaryUrl bucket commit platform) options g.force]) := by
  simp [Pinata, h]

/-- C6 witness: a concrete run against an always-hitting cache and a CI
system whose every capability would error if touched. -/
theorem C6_cache_hit_skips_ci_witness :
    Pinata cacheAlwaysOk jenkinsUnused ⟨false⟩ "b" "c" "p" optionsNone 2 2 =
      (some Outcome.success, [Event.cacheFetch (binaryUrl "b" "c" "p") optionsNone false]) :=
  C6_cache_hit_skips_ci cacheAlwaysOk jenkinsUnused ⟨false⟩ "b" "c" "p" optionsNone 2 2
    "/cache/file" rfl

/-- C2: after the first cache fetch fails and the remote build matched by
its first parameter completes, the orchestrator evaluates the build's
success flag: on success it performs EXACTLY one more cache fetch (two in
the whole run) and returns that fetch's outcome, whatever it is; on failure
it returns the "Build failed" error and performs no further cache fetch
(the run's only cache fetch stays the initial one). -/
theorem C2_fallback_retry (cenv : CacheEnv) (jenv : JenkinsEnv) (g : Globals)
    (bucket commit platform : String) (options : Options) (qFuel rFuel : Nat)
    (e0 : String) (taskId : Int) (qevs : List Event) (pre : List Int) (i : Int)
    (post : List Int) (b final : Build) (ps : List String) (bevs : List Event)
    (h0 : cenv.fetch 0 (binaryUrl bucket commit platform) options g.force = Except.error e0)
    (h1 : jenv.initErr = none) (h2 : jenv.getJobErr = none)
    (h3 : jenv.invokeResult = Except.ok taskId)
    (h4 : awaitQueue jenv taskId 0 qFuel = (some (Except.ok ()), qevs))
    (h5 : jenv.buildIds = Except.ok (pre ++ i :: post))
    (hpre : ∀ j ∈ pre, skippable jenv commit j)
    (hb : jenv.getBuild i 0 = Except.ok b)
    (hp : b.parameters = commit :: ps)
    (hw : awaitBuild jenv i b 1 rFuel = (some (Except.ok final), bevs)) :
    (final.isGood = true →
        (Pinata cenv jenv g bucket commit platform options qFuel rFuel).1 =
            some (DownloadK cenv g 1 (binaryUrl bucket commit platform) options).1 ∧
          (Pinata cenv jenv g bucket commit platform options qFuel rFuel).2.countP
            isCacheFetch = 2) ∧
      (final.isGood = false →
        (Pinata cenv jenv g bucket commit platform options qFuel rFuel).1 =
            some (Outcome.failure "Build failed") ∧
          (Pinata cenv jenv g bucket commit platform options qFuel rFuel).2.countP
            isCacheFetch = 1) := by
  have hscan := scanBuilds_skip_append jenv commit
    (DownloadK cenv g 1 (binaryUrl bucket commit platform) options) rFuel pre (i :: post) hpre
  have hhit := scanBuilds_hit jenv commit
    (DownloadK cenv g 1 (binaryUrl bucket commit platform) options) rFuel i post b final ps
    bevs hb hp hw
  have hpin := Pinata_scan cenv jenv g bucket commit platform options qFuel rFuel e0 taskId
    qevs (pre ++ i :: post) h0 h1 h2 h3 h4 h5
  rw [hscan, hhit] at hpin
  have hq0 : qevs.countP isCacheFetch = 0 := by
    apply List.countP_eq_zero.mpr
    intro x hx
    rw [awaitQueue_events jenv taskId 0 qFuel x (by rw [h4]; exact hx)]
    simp [isCacheFetch]
  have hb0 : bevs.countP isCacheFetch = 0 := by
    apply List.countP_eq_zero.mpr
    intro x hx
    rw [awaitBuild_events jenv i b 1 rFuel x (by rw [hw]; exact hx)]
    simp [isCacheFetch]
  have hm0 : (pre.map Event.buildFetch).countP isCacheFetch = 0 := by
    apply List.countP_eq_zero.mpr
    intro x hx
    obtain ⟨j, _, rfl⟩ := List.mem_map.mp hx
    simp [isCacheFetch]
  have hr1 : (DownloadK cenv g 1 (binaryUrl bucket commit platform) options).2.countP
      isCacheFetch = 1 := by
    rw [DownloadK_events]
    simp [isCacheFetch]
  constructor
  · intro hg
    rw [hpin]
    refine ⟨by simp [hg], ?_⟩
    simp [hg, List.countP_cons, List.countP_append, isCacheFetch, hq0, hb0, hm0, hr1]
  · intro hg
    rw [hpin]
    refine ⟨by simp [hg], ?_⟩
    simp [hg, List.countP_cons, List.countP_append, isCacheFetch, hq0, hb0, hm0, hr1]

/-- C2 witness: a concrete run per branch — a mocked CI system completing a
successful (respectively failed) build whose first parameter is the commit;
the successful branch performs the second cache fetch and returns its
result, the failed branch returns "Build failed" after a single fetch. -/
theorem C2_fallback_retry_witness :
    ((Pinata cacheMissThenHit (jenkinsWith buildGood) ⟨false⟩ "b" "c" "p" optionsNone 2 2).1 =
        some (DownloadK cacheMissThenHit ⟨false⟩ 1 (binaryUrl "b" "c" "p") optionsNone).1 ∧
      (Pinata cacheMissThenHit (jenkinsWith buildGood) ⟨false⟩ "b" "c" "p" optionsNone
          2 2).2.countP isCacheFetch = 2) ∧
      ((Pinata cacheMissThenHit (jenkinsWith buildBad) ⟨false⟩ "b" "c" "p" optionsNone 2 2).1 =
          some (Outcome.failure "Build failed") ∧
        (Pinata cacheMissThenHit (jenkinsWith buildBad) ⟨false⟩ "b" "c" "p" optionsNone
            2 2).2.countP isCacheFetch = 1) :=
  ⟨(C2_fallback_retry cacheMissThenHit (jenkinsWith buildGood) ⟨false⟩ "b" "c" "p" optionsNone
      2 2 "not in cache" 7 [Event.queuePoll] [] 3 [] buildGood buildGood [] []
      rfl rfl rfl rfl rfl rfl (by intro j hj; simp at hj) rfl rfl rfl).1 rfl,
    (C2_fallback_retry cacheMissThenHit (jenkinsWith buildBad) ⟨false⟩ "b" "c" "p" optionsNone
      2 2 "not in cache" 7 [Event.queuePoll] [] 3 [] buildBad buildBad [] []
      rfl rfl rfl rfl rfl rfl (by intro j hj; simp at hj) rfl rfl rfl).2 rfl⟩

/-- C3: after the run reaches the build-scan stage, the orchestrator
inspects the job's build records exactly in the order the CI system
returned them: if every returned record has a first parameter different
from the commit, the run ends with the "Build not found" error after
fetching every listed record once, in order; and the FIRST record whose
first parameter equals the commit is the one selected — the outcome is then
decided by that build alone, the records after it are never fetched (the
conclusion holds for arbitrary later ids), and the trace shows the skipped
prefix followed by the matched build. -/
theorem C3_locate_build (cenv : CacheEnv) (jenv : JenkinsEnv) (g : Globals)
    (bucket commit platform : String) (options : Options) (qFuel rFuel : Nat)
    (e0 : String) (taskId : Int) (qevs : List Event) (ids : List Int)
    (h0 : cenv.fetch 0 (binaryUrl bucket commit platform) options g.force = Except.error e0)
    (h1 : jenv.initErr = none) (h2 : jenv.getJobErr = none)
    (h3 : jenv.invokeResult = Except.ok taskId)
    (h4 : awaitQueue jenv taskId 0 qFuel = (some (Except.ok ()), qevs))
    (h5 : jenv.buildIds = Except.ok ids) :
    ((∀ j ∈ ids, skippable jenv commit j) →
        Pinata cenv jenv g bucket commit platform options qFuel rFuel =
          (some (Outcome.failure "Build not found"),
            Event.cacheFetch (binaryUrl bucket commit platform) options g.force ::
              Event.jenkinsInit :: Event.getJob (jobName platform) :: Event.invoke commit ::
              (qevs ++ ids.map Event.buildFetch))) ∧
      (∀ (pre : List Int) (i : Int) (post : List Int) (b : Build) (ps : List String),
        ids = pre ++ i :: post →
        (∀ j ∈ pre, skippable jenv commit j) →
        jenv.getBuild i 0 = Except.ok b →
        b.parameters = commit :: ps →
        b.isRunning = false →
        Pinata cenv jenv g bucket commit platform options qFuel rFuel =
          (some (if b.isGood
              then (DownloadK cenv g 1 (binaryUrl bucket commit platform) options).1
              else Outcome.failure "Build failed"),
            Event.cacheFetch (binaryUrl bucket commit platform) options g.force ::
              Event.jenkinsInit :: Event.getJob (jobName platform) :: Event.invoke commit ::
              (qevs ++ (pre.map Event.buildFetch ++ (Event.buildFetch i ::
                (if b.isGood
                  then (DownloadK cenv g 1 (binaryUrl bucket commit platform) options).2
                  else [])))))) := by
  have hpin := Pinata_scan cenv jenv g bucket commit platform options qFuel rFuel e0 taskId
    qevs ids h0 h1 h2 h3 h4 h5
  constructor
  · intro hall
    rw [hpin, scanBuilds_not_found jenv commit
      (DownloadK cenv g 1 (binaryUrl bucket commit platform) options) rFuel ids hall]
  · intro pre i post b ps hids hpre hb hp hrun
    subst hids
    have hw := awaitBuild_done jenv i b 1 rFuel hrun
    have hhit := scanBuilds_hit jenv commit
      (DownloadK cenv g 1 (binaryUrl bucket commit platform) options) rFuel i post b b ps []
      hb hp hw
    rw [hpin, scanBuilds_skip_append jenv commit
      (DownloadK cenv g 1 (binaryUrl bucket commit platform) options) rFuel pre (i :: post)
      hpre, hhit]
    simp

/-- C3 witness: against a job whose only build does not match the commit,
the run ends with "Build not found" after fetching it; against a job whose
only build matches and succeeded, the matched build decides the outcome. -/
theorem C3_locate_build_witness :
    Pinata cacheMissThenHit (jenkinsWith buildOther) ⟨false⟩ "b" "c" "p" optionsNone 2 2 =
      (some (Outcome.failure "Build not found"),
        Event.cacheFetch (binaryUrl "b" "c" "p") optionsNone false ::
          Event.jenkinsInit :: Event.getJob (jobName "p") :: Event.invoke "c" ::
          ([Event.queuePoll] ++ [(3 : Int)].map Event.buildFetch)) ∧
      Pinata cacheMissThenHit (jenkinsWith buildGood) ⟨false⟩ "b" "c" "p" optionsNone 2 2 =
        (some (if buildGood.isGood
            then (DownloadK cacheMissThenHit ⟨false⟩ 1 (binaryUrl "b" "c" "p") optionsNone).1
            else Outcome.failure "Build failed"),
          Event.cacheFetch (binaryUrl "b" "c" "p") optionsNone false ::
            Event.jenkinsInit :: Event.getJob (jobName "p") :: Event.invoke "c" ::
            ([Event.queuePoll] ++ (([] : List Int).map Event.buildFetch ++
              (Event.buildFetch 3 ::
                (if buildGood.isGood
                  then (DownloadK cacheMissThenHit ⟨false⟩ 1
                    (binaryUrl "b" "c" "p") optionsNone).2
                  else []))))) :=
  ⟨(C3_locate_build cacheMissThenHit (jenkinsWith buildOther) ⟨false⟩ "b" "c" "p" optionsNone
      2 2 "not in cache" 7 [Event.queuePoll] [3] rfl rfl rfl rfl rfl rfl).1
      (by
        intro j hj
        rw [List.mem_singleton] at hj
        subst hj
        exact ⟨buildOther, "x", [], rfl, rfl, by decide⟩),
    (C3_locate_build cacheMissThenHit (jenkinsWith buildGood) ⟨false⟩ "b" "c" "p" optionsNone
      2 2 "not in cache" 7 [Event.queuePoll] [3] rfl rfl rfl rfl rfl rfl).2
      [] 3 [] buildGood [] rfl (by intro j hj; simp at hj) rfl rfl rfl⟩

/-- C10: the scan loop reads the first parameter of every fetched build
record without checking that the parameter list is non-empty: when the scan
reaches (after skippable records) a listed build whose parameter list is
empty, the invocation crashes with the runtime index-out-of-range panic
instead of skipping the record or reporting an error. -/
theorem C10_empty_parameters_crash (cenv : CacheEnv) (jenv : JenkinsEnv) (g : Globals)
    (bucket commit platform : String) (options : Options) (qFuel rFuel : Nat)
    (e0 : String) (taskId : Int) (qevs : List Event) (pre : List Int) (i : Int)
    (post : List Int) (b : Build)
    (h0 : cenv.fetch 0 (binaryUrl bucket commit platform) options g.force = Except.error e0)
    (h1 : jenv.initErr = none) (h2 : jenv.getJobErr = none)
    (h3 : jenv.invokeResult = Except.ok taskId)
    (h4 : awaitQueue jenv taskId 0 qFuel = (some (Except.ok ()), qevs))
    (h5 : jenv.buildIds = Except.ok (pre ++ i :: post))
    (hpre : ∀ j ∈ pre, skippable jenv commit j)
    (hb : jenv.getBuild i 0 = Except.ok b)
    (hp : b.parameters = []) :
    (Pinata cenv jenv g bucket commit platform options qFuel rFuel).1 =
      some (Outcome.panicked "runtime error: index out of range [0] with length 0") := by
  have hpin := Pinata_scan cenv jenv g bucket commit platform options qFuel rFuel e0 taskId
    qevs (pre ++ i :: post) h0 h1 h2 h3 h4 h5
  rw [hpin, scanBuilds_skip_append jenv commit
    (DownloadK cenv g 1 (binaryUrl bucket commit platform) options) rFuel pre (i :: post) hpre,
    scanBuilds_panic jenv commit
    (DownloadK cenv g 1 (binaryUrl bucket commit platform) options) rFuel i post b hb hp]

/-- C10 witness: a job whose only listed build carries an empty parameter
list crashes the run. -/
theorem C10_empty_parameters_crash_witness :
    (Pinata cacheMissThenHit (jenkinsWith buildNoParams) ⟨false⟩ "b" "c" "p" optionsNone
        2 2).1 =
      some (Outcome.panicked "runtime error: index out of range [0] with length 0") :=
  C10_empty_parameters_crash cacheMissThenHit (jenkinsWith buildNoParams) ⟨false⟩ "b" "c" "p"
    optionsNone 2 2 "not in cache" 7 [Event.queuePoll] [] 3 [] buildNoParams
    rfl rfl rfl rfl rfl rfl (by intro j hj; simp at hj) rfl rfl

theorem Pinata_events_shape (cenv : CacheEnv) (jenv : JenkinsEnv) (g : Globals)
    (bucket commit platform : String) (options : Options) (qFuel rFuel : Nat) (e : Event)
    (he : e ∈ (Pinata cenv jenv g bucket commit platform options qFuel rFuel).2) :
    e = Event.cacheFetch (binaryUrl bucket commit platform) options g.force ∨
      e = Event.jenkinsInit ∨ e = Event.getJob (jobName platform) ∨
      e = Event.invoke commit ∨ e = Event.queuePoll ∨ ∃ j, e = Event.buildFetch j := by
  cases h0 : cenv.fetch 0 (binaryUrl bucket commit platform) options g.force with
  | ok path =>
    simp only [Pinata, h0] at he
    exact Or.inl (by simpa using he)
  | error e0 =>
    cases h1 : jenv.initErr with
    | some err =>
      simp only [Pinata, h0, h1] at he
      simp at he
      rcases he with h | h
      · exact Or.inl h
      · exact Or.inr (Or.inl h)
    | none =>
      cases h2 : jenv.getJobErr with
      | some err =>
        simp only [Pinata, h0, h1, h2] at he
        simp at he
        rcases he with h | h | h
        · exact Or.inl h
        · exact Or.inr (Or.inl h)
        · exact Or.inr (Or.inr (Or.inl h))
      | none =>
        cases h3 : jenv.invokeResult with
        | error err =>
          simp only [Pinata, h0, h1, h2, h3] at he
          simp at he
          rcases he with h | h | h | h
          · exact Or.inl h
          · exact Or.inr (Or.inl h)
          · exact Or.inr (Or.inr (Or.inl h))
          · exact Or.inr (Or.inr (Or.inr (Or.inl h)))
        | ok taskId =>
          have hqe : ∀ x ∈ (awaitQueue jenv taskId 0 qFuel).2, x = Event.queuePoll :=
            fun x hx => awaitQueue_events jenv taskId 0 qFuel x hx
          rcases hq : awaitQueue jenv taskId 0 qFuel with ⟨qr, qevs⟩
          rw [hq] at hqe
          have hqevs : ∀ x ∈ qevs, x = Event.queuePoll := fun x hx => hqe x hx
          match qr with
          | none =>
            simp only [Pinata, h0, h1, h2, h3, hq] at he
            simp at he
            rcases he with h | h | h | h | h
            · exact Or.inl h
            · exact Or.inr (Or.inl h)
            · exact Or.inr (Or.inr (Or.inl h))
            · exact Or.inr (Or.inr (Or.inr (Or.inl h)))
            · exact Or.inr (Or.inr (Or.inr (Or.inr (Or.inl (hqevs e h)))))
          | some (Except.error err) =>
            simp only [Pinata, h0, h1, h2, h3, hq] at he
            simp at he
            rcases he with h | h | h | h | h
            · exact Or.inl h
            · exact Or.inr (Or.inl h)
            · exact Or.inr (Or.inr (Or.inl h))
            · exact Or.inr (Or.inr (Or.inr (Or.inl h)))
            · exact Or.inr (Or.inr (Or.inr (Or.inr (Or.inl (hqevs e h)))))
          | some (Except.ok u) =>
            cases h5 : jenv.buildIds with
            | error err =>
              simp only [Pinata, h0, h1, h2, h3, hq, h5] at he
              simp at he
              rcases he with h | h | h | h | h
              · exact Or.inl h
              · exact Or.inr (Or.inl h)
              · exact Or.inr (Or.inr (Or.inl h))
              · exact Or.inr (Or.inr (Or.inr (Or.inl h)))
              · exact Or.inr (Or.inr (Or.inr (Or.inr (Or.inl (hqevs e h)))))
            | ok ids =>
              simp only [Pinata, h0, h1, h2, h3, hq, h5] at he
              simp at he
              rcases he with h | h | h | h | h | h
              · exact Or.inl h
              · exact Or.inr (Or.inl h)
              · exact Or.inr (Or.inr (Or.inl h))
              · exact Or.inr (Or.inr (Or.inr (Or.inl h)))
              · exact Or.inr (Or.inr (Or.inr (Or.inr (Or.inl (hqevs e h)))))
              · rcases scanBuilds_events jenv commit
                  (DownloadK cenv g 1 (binaryUrl bucket commit platform) options) rFuel ids
                  e h with h2 | ⟨j, h2⟩
                · rw [DownloadK_events] at h2
                  exact Or.inl (by simpa using h2)
                · exact Or.inr (Or.inr (Or.inr (Or.inr (Or.inr ⟨j, h2⟩))))

/-- C8 counterexample: the claim states that the fetch configuration,
including the force flag, is threaded through the `Options` value and never
read from process-wide state.  In the source, `force` is a package-level
variable (src/main.go lines 20-22) read directly by `Download`: two runs
with IDENTICAL `Options` values but different values of that global produce
different outcomes, so a core operation does read fetch configuration from
process-wide state. -/
theorem C8_force_global_counterexample :
    Download ⟨fun _ _ _ force => if force then Except.ok "/cache/file"
        else Except.error "not cached"⟩
      ⟨true⟩ "https://example.com/artifact" optionsNone ≠
      Download ⟨fun _ _ _ force => if force then Except.ok "/cache/file"
          else Except.error "not cached"⟩
        ⟨false⟩ "https://example.com/artifact" optionsNone := by
  decide

/-- C8 (amended): the `Options` record itself (auth tokens, S3 keys,
checksum) is immutable and threaded explicitly, but the force flag is NOT
part of it: it lives in the package-level `Globals` state, and every
cache-fetch call of a whole `Pinata` run — including the retry — receives
the one reference, the one options value and THE GLOBAL's force flag. -/
theorem C8_force_threaded_from_global (cenv : CacheEnv) (jenv : JenkinsEnv) (g : Globals)
    (bucket commit platform : String) (options : Options) (qFuel rFuel : Nat) (e : Event)
    (he : e ∈ (Pinata cenv jenv g bucket commit platform options qFuel rFuel).2)
    (hcf : isCacheFetch e = true) :
    e = Event.cacheFetch (binaryUrl bucket commit platform) options g.force := by
  rcases Pinata_events_shape cenv jenv g bucket commit platform options qFuel rFuel e he
    with h | h | h | h | h | ⟨j, h⟩
  · exact h
  all_goals rw [h] at hcf
  all_goals simp [isCacheFetch] at hcf

/-- C8 witness: a concrete run in which a cache-fetch event occurs; the
theorem pins it to the global's force value. -/
theorem C8_force_threaded_from_global_witness :
    Event.cacheFetch (binaryUrl "b" "c" "p") optionsNone true ∈
        (Pinata cacheAlwaysOk jenkinsUnused ⟨true⟩ "b" "c" "p" optionsNone 1 1).2 ∧
      Event.cacheFetch (binaryUrl "b" "c" "p") optionsNone true =
        Event.cacheFetch (binaryUrl "b" "c" "p") optionsNone true :=
  ⟨by decide, C8_force_threaded_from_global cacheAlwaysOk jenkinsUnused ⟨true⟩ "b" "c" "p"
    optionsNone 1 1 _ (by decide) rfl⟩

/-- An archive dispatcher whose implementations all succeed. -/
def archiveUnused : ArchiveEnv :=
  ⟨fun _ _ => none, fun _ _ _ => none, fun _ _ => none, fun _ _ _ => none⟩

/-- C9 counterexample: the claim states that a reference matching neither
suffix class fails with an unsupported-archive error carrying the
REFERENCE.  The source (src/main.go lines 235 and 257) builds the error
from `source`, the local path returned by the cache fetch: at a concrete
input whose cached path is "/cache/file", the error carries that path and
not the reference. -/
theorem C9_unsupported_payload_counterexample :
    (Extract cacheAlwaysOk archiveUnused ⟨false⟩ "https://example.com/artifact.bin" optionsNone
          "/dest").1 =
        Outcome.failure "Unsupported archive: /cache/file" ∧
      (Extract cacheAlwaysOk archiveUnused ⟨false⟩ "https://example.com/artifact.bin" optionsNone
          "/dest").1 ≠
        Outcome.failure "Unsupported archive: https://example.com/artifact.bin" := by
  constructor
  · rfl
  · decide

/-- C9 (amended): after a successful cache fetch, `Extract` and
`ExtractFiles` dispatch on the REFERENCE's filename suffix, never on the
artifact's contents — a zip-class suffix routes to the zip implementation,
a tar-family suffix to the tar implementation — and a reference matching
neither class fails with the unsupported-archive error carrying the fetched
local path (not the reference). -/
theorem C9_suffix_dispatch (cenv : CacheEnv) (aenv : ArchiveEnv) (g : Globals)
    (reference : String) (options : Options) (dir : String)
    (extracted : List ExtractedFile) (path : String)
    (hf : cenv.fetch 0 reference options g.force = Except.ok path) :
    (isZipArchive reference = true →
        Extract cenv aenv g reference options dir =
            (errToOutcome (aenv.zipExtract path dir),
              [Event.cacheFetch reference options g.force,
                Event.zipExtractCall path dir]) ∧
          ExtractFiles cenv aenv g reference options extracted =
            (errToOutcome (aenv.zipExtractFiles path extracted),
              [Event.cacheFetch reference options g.force,
                Event.zipExtractFilesCall path])) ∧
      (isZipArchive reference = false → isTarArchive reference = true →
        Extract cenv aenv g reference options dir =
            (errToOutcome (aenv.tarExtract reference path dir),
              [Event.cacheFetch reference options g.force,
                Event.tarExtractCall reference path dir]) ∧
          ExtractFiles cenv aenv g reference options extracted =
            (errToOutcome (aenv.tarExtractFiles reference path extracted),
              [Event.cacheFetch reference options g.force,
                Event.tarExtractFilesCall reference path])) ∧
      (isZipArchive reference = false → isTarArchive reference = false →
        Extract cenv aenv g reference options dir =
            (Outcome.failure ("Unsupported archive: " ++ path),
              [Event.cacheFetch reference options g.force]) ∧
          ExtractFiles cenv aenv g reference options extracted =
            (Outcome.failure ("Unsupported archive: " ++ path),
              [Event.cacheFetch reference options g.force])) := by
  refine ⟨fun hz => ⟨?_, ?_⟩, fun hz ht => ⟨?_, ?_⟩, fun hz ht => ⟨?_, ?_⟩⟩ <;>
    simp [Extract, ExtractFiles, hf, hz]
  all_goals simp [ht]

/-- C9 witness: a reference matching neither suffix class fails with the
unsupported-archive error carrying the cached path. -/
theorem C9_suffix_dispatch_witness :
    Extract cacheAlwaysOk archiveUnused ⟨false⟩ "https://example.com/artifact.bin" optionsNone
        "/dest" =
      (Outcome.failure ("Unsupported archive: " ++ "/cache/file"),
        [Event.cacheFetch "https://example.com/artifact.bin" optionsNone false]) :=
  ((C9_suffix_dispatch cacheAlwaysOk archiveUnused ⟨false⟩ "https://example.com/artifact.bin"
      optionsNone "/dest" [] "/cache/file" rfl).2.2 (by decide) (by decide)).1

end Getme
